import Mathlib

/-!
Verification development for `find_system_data.py`, a one-shot macOS disk-usage
reporting script.  The script is embedded shallowly: every external effect
(`Path.exists`, `Path.is_dir`, `subprocess.run` of `du -sk` and of the batched
`find … -exec du -sk`) is a field of an explicit environment record, and each
Python function becomes a pure Lean function over that environment.

Python `float` arithmetic appears in the script only as `bytes / 1024**3`
followed either by `:.2f` formatting or by a `>=` comparison against a
threshold.  For every byte count below 2^53 the IEEE double `b / 2**30` is
exact (binary scaling of an exactly representable integer), `printf`-style
`.2f` formatting is correctly rounded with round-half-to-even, and `>=` on
exact doubles is exact; so both uses are modelled by exact integer
arithmetic: `gbDisplay` (decimal formatting) and `gbAtLeast` (threshold
comparison by cross-multiplication).
-/

/-! ### Decimal digits and Python-style integer parsing -/

/-- A decimal digit character, `'0'`–`'9'`. -/
def natDigitChar (d : Nat) : Char := Char.ofNat (48 + d)

/-- Fuel-driven most-significant-first decimal digit accumulator, mirroring the
usual `repr` loop; with fuel `n + 1` it renders `n` completely. -/
def natDigitsCore : Nat → Nat → List Char → List Char
  | 0, _, acc => acc
  | fuel + 1, n, acc =>
    if n < 10 then natDigitChar n :: acc
    else natDigitsCore fuel (n / 10) (natDigitChar (n % 10) :: acc)

/-- Decimal representation of a natural number, as printed by `du`/`str(int)`. -/
def natChars (n : Nat) : List Char := natDigitsCore (n + 1) n []

/-- ASCII-whitespace trim of a character list; models Python `str.strip()`
(the script only ever strips ASCII output of `du`/`find`). -/
def trimWs (cs : List Char) : List Char :=
  ((cs.dropWhile Char.isWhitespace).reverse.dropWhile Char.isWhitespace).reverse

/-- Digit-run consumer for Python `int()`: accepts digits with single
underscores strictly between digits (PEP 515), accumulating a value. -/
def pyIntGo : List Char → Nat → Option Nat
  | [], a => some a
  | c :: cs, a =>
    if c.isDigit then pyIntGo cs (a * 10 + (c.toNat - 48))
    else if c = '_' then
      match cs with
      | c2 :: cs2 =>
        if c2.isDigit then pyIntGo cs2 (a * 10 + (c2.toNat - 48)) else none
      | [] => none
    else none

/-- Unsigned part of Python `int()`: nonempty, must start with a digit. -/
def pyIntDigits : List Char → Option Nat
  | [] => none
  | c :: cs => if c.isDigit then pyIntGo cs (c.toNat - 48) else none

/-- Model of Python `int(s)` on the ASCII strings produced by `du`/`find`:
strips surrounding whitespace, accepts an optional sign, then a digit run
(with PEP 515 underscores); `none` models a raised `ValueError`. -/
def pyInt (s : String) : Option Int :=
  match trimWs s.data with
  | [] => none
  | c :: rest =>
    if c = '+' then (pyIntDigits rest).map Int.ofNat
    else if c = '-' then (pyIntDigits rest).map (fun n => -(Int.ofNat n))
    else (pyIntDigits (c :: rest)).map Int.ofNat

/-- First whitespace-separated token of a string, i.e. the value of Python
`s.split()[0]`; `none` models the `IndexError` raised when `s.split()` is
empty. -/
def firstToken : List Char → Option (List Char)
  | [] => none
  | c :: rest =>
    if c.isWhitespace then firstToken rest
    else some (c :: rest.takeWhile (fun d => ¬ d.isWhitespace))

/-- Split a character list at every occurrence of `sep`, keeping empty
pieces: the semantics of Python `str.split(sep)` for a one-character `sep`. -/
def splitChar (sep : Char) : List Char → List (List Char)
  | [] => [[]]
  | c :: cs =>
    match splitChar sep cs with
    | [] => [[]]
    | p :: ps => if c = sep then [] :: p :: ps else (c :: p) :: ps

/-- Join lines with `'\n'` separators (inverse of `splitChar '\n'` on
newline-free lines); used to model the stdout of the batched `find` call. -/
def joinLines : List (List Char) → List Char
  | [] => []
  | [l] => l
  | l :: ls => l ++ '\n' :: joinLines ls

/-! ### Exact model of the script's float-GB arithmetic -/

/-- Round-half-to-even of the exact rational `q / d` (for `d ≠ 0`): the
rounding performed by `printf`-style `.2f` on an exactly represented value. -/
def rheNat (q d : Nat) : Nat :=
  let n := q / d
  let r := q % d
  if 2 * r < d then n
  else if d < 2 * r then n + 1
  else if n % 2 = 0 then n else n + 1

/-- Hundredths of a GB displayed for a byte count: round-half-even of
`100 * b / 1024^3`, which is exactly the value printed by
`f-string :.2f` applied to `bytes_to_gb(b)` for `b < 2^53`. -/
def gbCenti (b : Nat) : Nat := rheNat (100 * b) (1024 ^ 3)

/-- Render a number of hundredths as a fixed two-decimal string `d.cc`. -/
def centiChars (m : Nat) : List Char :=
  natChars (m / 100) ++ '.' ::
    (if m % 100 < 10 then '0' :: natChars (m % 100) else natChars (m % 100))

/-- Model of `f-string` `.2f` formatting of `bytes_to_gb(b)` = `b / 1024**3`:
sign-magnitude fixed-point decimal with two places and half-even rounding. -/
def gbDisplay (b : Int) : String :=
  if b < 0 then String.mk ('-' :: centiChars (gbCenti b.natAbs))
  else String.mk (centiChars (gbCenti b.toNat))

/-- An exact rational threshold value (the script's `min_size_gb` float
arguments `1.0` and `0.5` are exact doubles), kept as numerator/denominator. -/
structure Threshold where
  num : Int
  den : Nat
  den_pos : 0 < den

/-- Model of the float comparison `bytes_to_gb(bytes) >= min_size_gb`:
`bytes / 2^30 ≥ num / den` decided by exact cross-multiplication (both
doubles involved are exact, see the header note). -/
def gbAtLeast (bytes : Int) (m : Threshold) : Bool :=
  decide (m.num * 1024 ^ 3 ≤ bytes * (m.den : Int))

/-! ### The effect environment and `get_directory_size` -/

/-- Outcome of one `subprocess.run` invocation: normal completion with an
exit status and captured stdout, a raised `subprocess.TimeoutExpired`, or a
raised `PermissionError`/`OSError` from the process machinery. -/
inductive DuResult where
  | completed (returncode : Int) (stdout : String)
  | timeoutExpired
  | oserror
deriving DecidableEq

/-- The ambient system, one field per external effect the script performs:
`Path.exists`, `Path.is_dir`, `du -sk <path>` (per-path probe), and the
batched `find <root> -maxdepth 1 -type d -exec du -sk {} ;` invocation. -/
structure SysEnv where
  pathExists : String → Bool
  pathIsDir : String → Bool
  duResult : String → DuResult
  findDu : String → DuResult

/-- The one uncaught exception the script can raise from a probe:
`result.stdout.split()[0]` raises `IndexError` when stdout has no tokens,
and `IndexError` is absent from the `except` clause. -/
inductive PyError where
  | indexError
deriving DecidableEq

/-- Shallow embedding of `get_directory_size` (lines 28–51): returns
`(size_in_bytes, success)`; `.error` models the uncaught `IndexError`. -/
def get_directory_size (env : SysEnv) (path : String) :
    Except PyError (Int × Bool) :=
  if env.pathExists path = false then .ok (0, false)
  else
    match env.duResult path with
    | .timeoutExpired => .ok (0, false)
    | .oserror => .ok (0, false)
    | .completed rc out =>
      if rc = 0 then
        match firstToken out.data with
        | none => .error .indexError
        | some tok =>
          match pyInt (String.mk tok) with
          | some kb => .ok (kb * 1024, true)
          | none => .ok (0, false)
      else .ok (0, false)

/-! ### The catalog scan (`scan_system_data_locations`, lines 57–132) -/

/-- One accumulated `(path_str, description, size_bytes, requires_sudo)`
tuple, named `LocationRecord` as in the design document. -/
structure LocationRecord where
  path : String
  desc : String
  sizeBytes : Int
  requiresSudo : Bool
deriving DecidableEq

/-- The hardcoded `system_locations` catalog (lines 62–111), with
`os.path.expanduser` resolved against the given home directory. -/
def system_locations (home : String) : List (String × String × Bool) :=
  [ ("/Library/Caches", "System Caches", true)
  , ("/private/var/folders", "System Temporary Files", true)
  , ("/private/var/vm", "Virtual Memory Swap Files", true)
  , ("/private/var/db", "System Databases", true)
  , ("/private/var/log", "System Logs", true)
  , ("/System/Library/Caches", "System Library Caches", true)
  , ("/.MobileBackups", "Time Machine Local Snapshots", true)
  , ("/private/var/db/.MobileBackups", "Time Machine Local Snapshots (Alt)", true)
  , (home ++ "/Library/Caches", "User Library Caches", false)
  , (home ++ "/Library/Logs", "User Library Logs", false)
  , (home ++ "/Library/Application Support", "User Application Support", false)
  , (home ++ "/Library/Containers", "User App Containers", false)
  , (home ++ "/Library/Developer", "Xcode & Developer Files", false)
  , (home ++ "/Library/Containers/com.docker.docker", "Docker Data", false)
  , (home ++ "/Library/VirtualBox", "VirtualBox VMs", false)
  , (home ++ "/Library/Application Support/Parallels", "Parallels VMs", false)
  , ("/private/var/containers", "System App Containers", true)
  , ("/.Spotlight-V100", "Spotlight Index", true)
  , (home ++ "/.Spotlight-V100", "User Spotlight Index", false)
  , (home ++ "/Library/Mail", "Mail Data", false)
  , (home ++ "/Library/Application Support/MobileSync/Backup", "iOS Device Backups", false)
  , ("/opt/homebrew", "Homebrew (Apple Silicon)", true)
  , ("/usr/local", "Homebrew (Intel)", true)
  , (home ++ "/node_modules", "Node Modules (Home)", false)
  , (home ++ "/.Trash", "Trash", false) ]

/-- The accumulation loop of `scan_system_data_locations` (lines 116–130):
a record is appended when the probe succeeded with positive size, or when it
failed but the path exists (permission denied); a probe raising the uncaught
`IndexError` aborts the whole scan. -/
def scanLoop (env : SysEnv) :
    List (String × String × Bool) → List LocationRecord →
    Except PyError (List LocationRecord)
  | [], acc => .ok acc
  | (p, d, su) :: rest, acc =>
    match get_directory_size env p with
    | .error e => .error e
    | .ok (size, success) =>
      if success = true ∧ 0 < size then
        scanLoop env rest (acc ++ [⟨p, d, size, su⟩])
      else if success = false ∧ env.pathExists p = true then
        scanLoop env rest (acc ++ [⟨p, d, 0, su⟩])
      else scanLoop env rest acc

/-- Shallow embedding of `scan_system_data_locations`, generalised over the
catalog (the script always passes `system_locations home`). -/
def scan_system_data_locations (env : SysEnv)
    (catalog : List (String × String × Bool)) :
    Except PyError (List LocationRecord) :=
  scanLoop env catalog []

/-- Whether a catalog entry produces a rendered row: exactly the condition of
lines 122 and 126 (success with positive size, or failure on an existing
path).  A probe that raises never yields a report at all. -/
def appendedP (env : SysEnv) (e : String × String × Bool) : Bool :=
  match get_directory_size env e.1 with
  | .ok (n, true) => decide (0 < n)
  | .ok (_, false) => env.pathExists e.1
  | .error _ => false

/-- The spec's notion of a row-producing probe for claim C1: the probe
succeeded (with any size), or the path exists and the probe failed. -/
def claimedRowP (env : SysEnv) (e : String × String × Bool) : Bool :=
  match get_directory_size env e.1 with
  | .ok (_, true) => true
  | .ok (_, false) => env.pathExists e.1
  | .error _ => false

/-! ### `find_large_directories` (lines 134–165) -/

/-- The line-processing loop of `find_large_directories` (lines 151–161).
An unparsable size field raises `ValueError`, which the surrounding
`except … : pass` turns into returning the entries accumulated so far. -/
def flLoop (m : Threshold) :
    List (List Char) → List (String × Int) → List (String × Int)
  | [], acc => acc
  | line :: rest, acc =>
    if line = [] then flLoop m rest acc
    else
      match splitChar '\t' line with
      | [p0, p1] =>
        match pyInt (String.mk p0) with
        | none => acc
        | some kb =>
          if 0 < kb then
            if gbAtLeast (kb * 1024) m then
              flLoop m rest (acc ++ [(String.mk p1, kb * 1024)])
            else flLoop m rest acc
          else flLoop m rest acc
      | _ => flLoop m rest acc

/-- Shallow embedding of `find_large_directories`: guards on the root,
invokes the batched `find … -exec du -sk` utility, and processes
`stdout.strip().split('\n')` line by line. -/
def find_large_directories (env : SysEnv) (root : String) (m : Threshold) :
    List (String × Int) :=
  if env.pathExists root = false then []
  else if env.pathIsDir root = false then []
  else
    match env.findDu root with
    | .timeoutExpired => []
    | .oserror => []
    | .completed rc out =>
      if rc = 0 then flLoop m (splitChar '\n' (trimWs out.data)) []
      else []

/-! ### The report (`print_results_table`, lines 167–207) -/

/-- Descending-by-`sizeBytes` comparison used by
`locations.sort(key=lambda x: x[2], reverse=True)`. -/
def recGE (a b : LocationRecord) : Prop := b.sizeBytes ≤ a.sizeBytes

instance : DecidableRel recGE :=
  fun a b => inferInstanceAs (Decidable (b.sizeBytes ≤ a.sizeBytes))

instance : IsTotal LocationRecord recGE :=
  ⟨fun a b => Or.symm (le_total a.sizeBytes b.sizeBytes)⟩

instance : IsTrans LocationRecord recGE :=
  ⟨fun _ _ _ h1 h2 => le_trans h2 h1⟩

/-- The stable descending in-place sort of line 174.  CPython's `list.sort`
with `reverse=True` is a stable sort under the reversed key order, which is
extensionally the insertion sort under `recGE` (ties keep list order). -/
def sortRecords (locs : List LocationRecord) : List LocationRecord :=
  List.insertionSort recGE locs

/-- Path column width (line 180): `max(60, min(max_path_len + 2, 80))`. -/
def path_width (locs : List LocationRecord) : Nat :=
  max 60 (min ((locs.map (fun r => r.path.length)).foldr max 0 + 2) 80)

/-- Description column width (line 181): `max(35, min(max_desc_len + 2, 50))`. -/
def desc_width (locs : List LocationRecord) : Nat :=
  max 35 (min ((locs.map (fun r => r.desc.length)).foldr max 0 + 2) 50)

/-- Path truncation of line 196:
`path if len(path) <= path_width - 2 else "..." + path[-(path_width-5):]`. -/
def display_path (pw : Nat) (path : String) : String :=
  if path.length ≤ pw - 2 then path
  else "..." ++ String.mk (path.data.drop (path.length - (pw - 5)))

/-- Left-pad with spaces to a given width, as `f-string` `:>{w}` alignment. -/
def padLeft (w : Nat) (s : String) : String :=
  String.mk (List.replicate (w - s.length) ' ') ++ s

/-- The cells of one printed row (lines 196–201); alignment padding of the
path and description cells is presentational and kept out of the cell text. -/
structure Row where
  pathCell : String
  descCell : String
  sizeText : String
  permText : String
deriving DecidableEq

/-- Render one sorted record into its row cells (lines 193–201). -/
def renderRow (pw : Nat) (r : LocationRecord) : Row :=
  { pathCell := display_path pw r.path
  , descCell := r.desc
  , sizeText := padLeft 10 (gbDisplay r.sizeBytes) ++ " GB"
  , permText :=
      if r.requiresSudo = true ∧ r.sizeBytes = 0 then "sudo needed"
      else "user access" }

/-- The total line of line 206: the loop of lines 190–192 accumulates
`total_size` over the sorted records. -/
def totalText (sorted : List LocationRecord) : String :=
  "Total Scanned: " ++ gbDisplay ((sorted.map (fun r => r.sizeBytes)).sum) ++ " GB"

/-- Observable outcome of `print_results_table`: the rendered rows, the
total line (absent on the empty early return of lines 169–171), and the
final contents of the caller's list object (mutated in place by line 174). -/
structure TableOut where
  rows : List Row
  total : Option String
  postState : List LocationRecord
deriving DecidableEq

/-- Shallow embedding of `print_results_table` (lines 167–207). -/
def print_results_table (locs : List LocationRecord) : TableOut :=
  match locs with
  | [] => ⟨[], none, locs⟩
  | _ :: _ =>
    let sorted := sortRecords locs
    let pw := path_width sorted
    ⟨sorted.map (renderRow pw), some (totalText sorted), sorted⟩

/-! ### Lemmas about the stable descending sort -/

theorem sortRecords_perm (l : List LocationRecord) : (sortRecords l).Perm l :=
  List.perm_insertionSort recGE l

theorem sortRecords_pairwise (l : List LocationRecord) :
    (sortRecords l).Pairwise (fun a b => b.sizeBytes ≤ a.sizeBytes) :=
  List.sorted_insertionSort recGE l

theorem filter_orderedInsert_size (s : Int) (x : LocationRecord) :
    ∀ l : List LocationRecord,
      (List.orderedInsert recGE x l).filter (fun r => decide (r.sizeBytes = s)) =
        (x :: l).filter (fun r => decide (r.sizeBytes = s))
  | [] => rfl
  | b :: t => by
    by_cases h : recGE x b
    · simp [List.orderedInsert, h]
    · have hlt : x.sizeBytes < b.sizeBytes := lt_of_not_le h
      have ih := filter_orderedInsert_size s x t
      by_cases hb : b.sizeBytes = s <;> by_cases hx : x.sizeBytes = s
      · exact absurd (hx.trans hb.symm) (ne_of_lt hlt)
      · simp [List.orderedInsert, h, List.filter_cons, hb, hx, ih]
      · simp [List.orderedInsert, h, List.filter_cons, hb, hx, ih]
      · simp [List.orderedInsert, h, List.filter_cons, hb, hx, ih]

theorem sortRecords_filter_size (s : Int) :
    ∀ l : List LocationRecord,
      (sortRecords l).filter (fun r => decide (r.sizeBytes = s)) =
        l.filter (fun r => decide (r.sizeBytes = s))
  | [] => rfl
  | a :: t => by
    have ih := sortRecords_filter_size s t
    simp only [sortRecords, List.insertionSort] at *
    rw [filter_orderedInsert_size]
    by_cases ha : a.sizeBytes = s <;> simp [List.filter_cons, ha, ih]

theorem sortRecords_length (l : List LocationRecord) :
    (sortRecords l).length = l.length :=
  (sortRecords_perm l).length_eq

/-- The number of rendered rows always equals the number of records given to
the reporter (every record is printed exactly once). -/
theorem rows_length (locs : List LocationRecord) :
    (print_results_table locs).rows.length = locs.length := by
  match locs with
  | [] => rfl
  | a :: t =>
    show ((sortRecords (a :: t)).map _).length = _
    rw [List.length_map, sortRecords_length]

/-- Claim C3: the report renders the records sorted descending by
`sizeBytes` (any row before another has size at least as large), and records
of equal size keep their original catalog order: for every size value the
subsequence of records of that size is unchanged.  `postState` is the exact
sequence the rows are rendered from (the rows are its image under
`renderRow`). -/
theorem C3_sorted_stable (locs : List LocationRecord) :
    (print_results_table locs).postState.Pairwise
        (fun a b => b.sizeBytes ≤ a.sizeBytes) ∧
    (∀ s : Int,
      (print_results_table locs).postState.filter (fun r => decide (r.sizeBytes = s)) =
        locs.filter (fun r => decide (r.sizeBytes = s))) ∧
    (print_results_table locs).rows =
      (print_results_table locs).postState.map
        (renderRow (path_width (sortRecords locs))) := by
  match locs with
  | [] => exact ⟨List.Pairwise.nil, fun s => rfl, rfl⟩
  | a :: t =>
    refine ⟨sortRecords_pairwise (a :: t), fun s => sortRecords_filter_size s (a :: t), rfl⟩

/-- Claim C10: rendering the report mutates its input: for a non-empty record
list the caller's list object afterwards holds a permutation of the original
records, sorted descending by `sizeBytes` — and in general a different
sequence than the one passed in, as the concrete two-record instance shows. -/
theorem C10_mutation (locs : List LocationRecord) (h : locs ≠ []) :
    (print_results_table locs).postState.Perm locs ∧
    (print_results_table locs).postState.Pairwise
        (fun a b => b.sizeBytes ≤ a.sizeBytes) ∧
    (print_results_table [⟨"/a", "A", 1, false⟩, ⟨"/b", "B", 2, false⟩]).postState ≠
      [⟨"/a", "A", 1, false⟩, ⟨"/b", "B", 2, false⟩] := by
  match locs, h with
  | a :: t, _ =>
    exact ⟨sortRecords_perm (a :: t), sortRecords_pairwise (a :: t), by decide⟩

theorem C10_witness :
    ([⟨"/a", "A", 1, false⟩, ⟨"/b", "B", 2, false⟩] : List LocationRecord) ≠ [] ∧
    (print_results_table [⟨"/a", "A", 1, false⟩, ⟨"/b", "B", 2, false⟩]).postState.Perm
      [⟨"/a", "A", 1, false⟩, ⟨"/b", "B", 2, false⟩] :=
  ⟨by decide, (C10_mutation [⟨"/a", "A", 1, false⟩, ⟨"/b", "B", 2, false⟩] (by decide)).1⟩

/-- Claim C9: for every non-empty record list, the total printed after the
table is the sum of the `sizeBytes` of all records of the input list,
converted to gigabytes and displayed with two decimals; on the catalog
`A ↦ 2 GB, B ↦ 5 GB` the rendered order is `B` then `A` and the total reads
`7.00 GB`. -/
theorem C9_total (locs : List LocationRecord) (h : locs ≠ []) :
    (print_results_table locs).total =
      some ("Total Scanned: " ++
        gbDisplay ((locs.map (fun r => r.sizeBytes)).sum) ++ " GB") ∧
    (print_results_table
        [⟨"/tmp/a", "A", 2147483648, false⟩, ⟨"/tmp/b", "B", 5368709120, false⟩]).postState =
      [⟨"/tmp/b", "B", 5368709120, false⟩, ⟨"/tmp/a", "A", 2147483648, false⟩] ∧
    (print_results_table
        [⟨"/tmp/a", "A", 2147483648, false⟩, ⟨"/tmp/b", "B", 5368709120, false⟩]).total =
      some "Total Scanned: 7.00 GB" := by
  match locs, h with
  | a :: t, _ =>
    refine ⟨?_, by decide, by decide⟩
    show some (totalText (sortRecords (a :: t))) = _
    have hsum : ((sortRecords (a :: t)).map (fun r => r.sizeBytes)).sum =
        ((a :: t).map (fun r => r.sizeBytes)).sum :=
      ((sortRecords_perm (a :: t)).map (fun r => r.sizeBytes)).sum_eq
    rw [totalText, hsum]

theorem C9_witness :
    ([⟨"/tmp/a", "A", 2147483648, false⟩, ⟨"/tmp/b", "B", 5368709120, false⟩] :
        List LocationRecord) ≠ [] ∧
    (print_results_table
        [⟨"/tmp/a", "A", 2147483648, false⟩, ⟨"/tmp/b", "B", 5368709120, false⟩]).total =
      some "Total Scanned: 7.00 GB" :=
  ⟨by decide,
    (C9_total [⟨"/tmp/a", "A", 2147483648, false⟩, ⟨"/tmp/b", "B", 5368709120, false⟩]
      (by decide)).2.2⟩

/-- Claim C8: a rendered record's permission flag is `"sudo needed"` exactly
when its catalog flag is elevated-access and its recorded size is zero, and
`"user access"` in every other case; every row of the report is the rendering
of one of the input records. -/
theorem C8_perm_flag :
    (∀ (pw : Nat) (r : LocationRecord),
      ((renderRow pw r).permText = "sudo needed" ↔
        r.requiresSudo = true ∧ r.sizeBytes = 0) ∧
      (¬(r.requiresSudo = true ∧ r.sizeBytes = 0) →
        (renderRow pw r).permText = "user access")) ∧
    (∀ (locs : List LocationRecord) (row : Row),
      row ∈ (print_results_table locs).rows →
        ∃ r, r ∈ locs ∧ row = renderRow (path_width (sortRecords locs)) r) := by
  constructor
  · intro pw r
    constructor
    · show (if r.requiresSudo = true ∧ r.sizeBytes = 0 then "sudo needed"
          else "user access") = "sudo needed" ↔ _
      by_cases h : r.requiresSudo = true ∧ r.sizeBytes = 0 <;> simp [h]
    · intro h
      show (if r.requiresSudo = true ∧ r.sizeBytes = 0 then "sudo needed"
          else "user access") = "user access"
      simp [h]
  · intro locs row hrow
    match locs, hrow with
    | a :: t, hrow =>
      have hmem : row ∈ (sortRecords (a :: t)).map
          (renderRow (path_width (sortRecords (a :: t)))) := hrow
      obtain ⟨r, hr, hrw⟩ := List.mem_map.mp hmem
      exact ⟨r, (List.mem_insertionSort recGE).mp hr, hrw.symm⟩

theorem C8_witness :
    ¬((⟨"/x", "d", 5, true⟩ : LocationRecord).requiresSudo = true ∧
      (⟨"/x", "d", 5, true⟩ : LocationRecord).sizeBytes = 0) ∧
    (renderRow 60 ⟨"/x", "d", 5, true⟩).permText = "user access" :=
  ⟨by decide, (C8_perm_flag.1 60 ⟨"/x", "d", 5, true⟩).2 (by decide)⟩

/-! ### Claim C1: which probes produce rows -/

theorem gds_true_exists (env : SysEnv) (p : String) (n : Int)
    (h : get_directory_size env p = .ok (n, true)) : env.pathExists p = true := by
  by_cases hex : env.pathExists p = false
  · rw [get_directory_size, if_pos hex] at h
    simp at h
  · exact eq_true_of_ne_false hex

theorem scanLoop_spec (env : SysEnv) :
    ∀ (cat : List (String × String × Bool)) (acc locs : List LocationRecord),
      scanLoop env cat acc = .ok locs →
      locs.length = acc.length + cat.countP (appendedP env) ∧
      (∀ r ∈ locs, r ∈ acc ∨ env.pathExists r.path = true)
  | [], acc, locs, h => by
    cases h
    exact ⟨by simp, fun r hr => Or.inl hr⟩
  | (p, d, su) :: rest, acc, locs, h => by
    rw [scanLoop] at h
    match hgds : get_directory_size env p with
    | .error e => rw [hgds] at h; exact absurd h (by simp)
    | .ok (size, success) =>
      rw [hgds] at h
      simp only [] at h
      by_cases h1 : success = true ∧ 0 < size
      · rw [if_pos h1] at h
        obtain ⟨hl, hm⟩ := scanLoop_spec env rest (acc ++ [⟨p, d, size, su⟩]) locs h
        have happ : appendedP env (p, d, su) = true := by
          unfold appendedP
          rw [hgds, h1.1]
          exact decide_eq_true h1.2
        constructor
        · rw [hl, List.countP_cons, happ]
          simp only [List.length_append, List.length_singleton, if_pos]
          omega
        · intro r hr
          rcases hm r hr with hacc | hex
          · rcases List.mem_append.mp hacc with h2 | h2
            · exact Or.inl h2
            · refine Or.inr ?_
              have : r = ⟨p, d, size, su⟩ := List.mem_singleton.mp h2
              subst this
              exact gds_true_exists env p size (h1.1 ▸ hgds)
          · exact Or.inr hex
      · by_cases h2 : success = false ∧ env.pathExists p = true
        · rw [if_neg h1, if_pos h2] at h
          obtain ⟨hl, hm⟩ := scanLoop_spec env rest (acc ++ [⟨p, d, 0, su⟩]) locs h
          have happ : appendedP env (p, d, su) = true := by
            unfold appendedP
            rw [hgds, h2.1]
            exact h2.2
          constructor
          · rw [hl, List.countP_cons, happ]
            simp only [List.length_append, List.length_singleton, if_pos]
            omega
          · intro r hr
            rcases hm r hr with hacc | hex
            · rcases List.mem_append.mp hacc with h3 | h3
              · exact Or.inl h3
              · have : r = ⟨p, d, 0, su⟩ := List.mem_singleton.mp h3
                subst this
                exact Or.inr h2.2
            · exact Or.inr hex
        · rw [if_neg h1, if_neg h2] at h
          obtain ⟨hl, hm⟩ := scanLoop_spec env rest acc locs h
          have happ : appendedP env (p, d, su) = false := by
            unfold appendedP
            rw [hgds]
            match success, h1, h2 with
            | true, h1, _ =>
              exact decide_eq_false (fun hpos => h1 ⟨rfl, hpos⟩)
            | false, _, h2 =>
              exact eq_false_of_ne_true (fun hx => (h2 ⟨rfl, hx⟩).elim)
          constructor
          · rw [hl, List.countP_cons, happ]
            simp
          · exact hm

/-- Claim C1, counterexample: a catalog entry whose path exists and whose
probe succeeds reporting zero kilobytes produces no record and hence no row,
yet it is a successful probe: with one such entry the report has 0 rows while
the number of successful-or-permission-denied probes is 1. -/
theorem C1_counterexample :
    scan_system_data_locations
        ⟨fun p => p = "/p", fun _ => true, fun _ => .completed 0 "0\t/p",
          fun _ => .oserror⟩
        [("/p", "d", true)] = .ok [] ∧
    (print_results_table []).rows.length = 0 ∧
    List.countP
        (claimedRowP
          ⟨fun p => p = "/p", fun _ => true, fun _ => .completed 0 "0\t/p",
            fun _ => .oserror⟩)
        [("/p", "d", true)] = 1 :=
  ⟨rfl, rfl, by decide⟩

/-- Claim C1 as amended: when the scan completes without raising, the number
of rendered rows equals the number of probes that succeeded *with positive
size* or were permission-denied (path exists but probe failed), and a
catalog path that does not exist never appears as a row. -/
theorem C1_rows (env : SysEnv) (cat : List (String × String × Bool))
    (locs : List LocationRecord)
    (h : scan_system_data_locations env cat = .ok locs) :
    (print_results_table locs).rows.length = cat.countP (appendedP env) ∧
    (∀ r ∈ locs, env.pathExists r.path = true) := by
  obtain ⟨hl, hm⟩ := scanLoop_spec env cat [] locs h
  refine ⟨?_, fun r hr => (hm r hr).resolve_left (by simp)⟩
  rw [rows_length, hl]
  simp

theorem C1_witness :
    scan_system_data_locations
        ⟨fun p => p = "/q", fun _ => true, fun _ => .completed 0 "5\t/q",
          fun _ => .oserror⟩
        [("/q", "d", false)] = .ok [⟨"/q", "d", 5120, false⟩] ∧
    (print_results_table [⟨"/q", "d", 5120, false⟩]).rows.length =
      List.countP
        (appendedP
          ⟨fun p => p = "/q", fun _ => true, fun _ => .completed 0 "5\t/q",
            fun _ => .oserror⟩)
        [("/q", "d", false)] :=
  ⟨rfl,
    (C1_rows
      ⟨fun p => p = "/q", fun _ => true, fun _ => .completed 0 "5\t/q",
        fun _ => .oserror⟩
      [("/q", "d", false)] [⟨"/q", "d", 5120, false⟩] rfl).1⟩

/-! ### Claim C2: path truncation -/

/-- Claim C2, counterexample: with one record whose path has 79 characters
the computed path column width is 80, so the path is *not* longer than the
column width, yet it is rendered truncated — and the truncated cell has
length 78, not the column width 80.  (The code truncates whenever
`len(path) > path_width - 2` and produces `3 + (path_width - 5)` characters.) -/
theorem C2_counterexample :
    (String.mk (List.replicate 79 'a')).length ≤
      path_width [⟨String.mk (List.replicate 79 'a'), "D", 1, false⟩] ∧
    (print_results_table [⟨String.mk (List.replicate 79 'a'), "D", 1, false⟩]).rows.map
        (fun row => row.pathCell) =
      [String.mk ('.' :: '.' :: '.' :: List.replicate 75 'a')] ∧
    String.mk ('.' :: '.' :: '.' :: List.replicate 75 'a') ≠
      String.mk (List.replicate 79 'a') ∧
    (String.mk ('.' :: '.' :: '.' :: List.replicate 75 'a')).length ≠
      path_width [⟨String.mk (List.replicate 79 'a'), "D", 1, false⟩] := by
  refine ⟨by decide, by decide, by decide, by decide⟩

/-- Claim C2 as amended: with `pw` the computed path column width (always at
least 60), a path of length at most `pw - 2` is rendered unmodified, and a
longer path is rendered as `"..."` followed by exactly its final `pw - 5`
characters, the whole cell having length exactly `pw - 2`. -/
theorem C2_truncation (locs : List LocationRecord) (path : String) :
    60 ≤ path_width locs ∧
    (path.length ≤ path_width locs - 2 →
      display_path (path_width locs) path = path) ∧
    (path_width locs - 2 < path.length →
      (display_path (path_width locs) path).length = path_width locs - 2 ∧
      (display_path (path_width locs) path).data.take 3 = ['.', '.', '.'] ∧
      (display_path (path_width locs) path).data.drop 3 <:+ path.data ∧
      ((display_path (path_width locs) path).data.drop 3).length =
        path_width locs - 5) := by
  have h60 : 60 ≤ path_width locs := le_max_left 60 _
  refine ⟨h60, fun hle => ?_, fun hgt => ?_⟩
  · rw [display_path, if_pos hle]
  · rw [display_path, if_neg (not_le.mpr hgt)]
    have hlen : path.length = path.data.length := rfl
    have h5 : path_width locs - 5 ≤ path.data.length := by omega
    have hdl : (path.data.drop (path.length - (path_width locs - 5))).length =
        path_width locs - 5 := by
      rw [List.length_drop]
      omega
    have hdata : ("..." ++ String.mk
        (path.data.drop (path.length - (path_width locs - 5)))).data =
        '.' :: '.' :: '.' :: path.data.drop (path.length - (path_width locs - 5)) := rfl
    constructor
    · show (("..." ++ String.mk _).data).length = _
      rw [hdata]
      simp only [List.length_cons, hdl]
      omega
    refine ⟨?_, ?_, ?_⟩
    · rw [hdata]
      rfl
    · rw [hdata]
      show path.data.drop (path.length - (path_width locs - 5)) <:+ path.data
      exact List.drop_suffix _ _
    · rw [hdata]
      exact hdl

theorem C2_witness :
    60 ≤ path_width [] ∧
    ((String.mk (List.replicate 10 'b')).length ≤ path_width [] - 2 →
      display_path (path_width []) (String.mk (List.replicate 10 'b')) =
        String.mk (List.replicate 10 'b')) :=
  ⟨(C2_truncation [] (String.mk (List.replicate 10 'b'))).1,
    (C2_truncation [] (String.mk (List.replicate 10 'b'))).2.1⟩

/-! ### Claims C4 and C5: the probe's conversion and error handling -/

/-- Claim C4: whenever the utility succeeds (exit status 0) and its output's
leading whitespace-separated field parses as an integer `k` (kilobytes), the
probe returns `k * 1024` bytes with success; in particular `1048576`
kilobytes is `1073741824` bytes, displayed as `1.00` GB. -/
theorem C4_size_conversion (env : SysEnv) (p out : String) (tok : List Char)
    (k : Int)
    (hex : env.pathExists p = true)
    (hdu : env.duResult p = .completed 0 out)
    (htok : firstToken out.data = some tok)
    (hk : pyInt (String.mk tok) = some k) :
    get_directory_size env p = .ok (k * 1024, true) ∧
    (1048576 : Int) * 1024 = 1073741824 ∧
    gbDisplay (1048576 * 1024) = "1.00" := by
  refine ⟨?_, by decide, by decide⟩
  simp [get_directory_size, hex, hdu, htok, hk]

theorem C4_witness :
    (⟨fun q => q = "/p", fun _ => true, fun _ => .completed 0 "1048576\t/p",
        fun _ => .oserror⟩ : SysEnv).pathExists "/p" = true ∧
    (get_directory_size
        ⟨fun q => q = "/p", fun _ => true, fun _ => .completed 0 "1048576\t/p",
          fun _ => .oserror⟩ "/p" = .ok (1048576 * 1024, true) ∧
      (1048576 : Int) * 1024 = 1073741824 ∧
      gbDisplay (1048576 * 1024) = "1.00") :=
  ⟨by decide,
    C4_size_conversion
      ⟨fun q => q = "/p", fun _ => true, fun _ => .completed 0 "1048576\t/p",
        fun _ => .oserror⟩
      "/p" "1048576\t/p" "1048576".data 1048576 (by decide) rfl (by decide)
      (by decide)⟩

/-- Claim C5, counterexample: on an existing path whose probe completes with
exit status 0 but whitespace-only stdout (unparsable output), the subscript
`result.stdout.split()[0]` raises `IndexError`, which the `except` clause of
lines 50–51 does not catch: the probe raises instead of returning `(0, False)`. -/
theorem C5_counterexample :
    get_directory_size
        ⟨fun p => p = "/p", fun _ => true, fun _ => .completed 0 " ",
          fun _ => .oserror⟩ "/p" = .error .indexError ∧
    get_directory_size
        ⟨fun p => p = "/p", fun _ => true, fun _ => .completed 0 " ",
          fun _ => .oserror⟩ "/p" ≠ .ok (0, false) :=
  ⟨rfl, fun h => Except.noConfusion h⟩

/-- Claim C5 as amended: the probe returns `(0, false)` for an absent path
without consulting the utility (the outcome is the same for every utility
behaviour), and returns `(0, false)` on timeout, on a raised
permission/OS error, on a non-zero exit status, and on output whose first
whitespace-separated token is not a valid integer literal; but when the
utility exits with status 0 and its output contains no token at all, the
probe raises an uncaught `IndexError` instead. -/
theorem C5_error_handling (pe pid : String → Bool) (du fdu : String → DuResult)
    (p : String) :
    (pe p = false → ∀ du2 : String → DuResult,
      get_directory_size ⟨pe, pid, du2, fdu⟩ p = .ok (0, false)) ∧
    (du p = .timeoutExpired →
      get_directory_size ⟨pe, pid, du, fdu⟩ p = .ok (0, false)) ∧
    (du p = .oserror →
      get_directory_size ⟨pe, pid, du, fdu⟩ p = .ok (0, false)) ∧
    (∀ rc out, du p = .completed rc out → rc ≠ 0 →
      get_directory_size ⟨pe, pid, du, fdu⟩ p = .ok (0, false)) ∧
    (∀ out tok, du p = .completed 0 out → firstToken out.data = some tok →
      pyInt (String.mk tok) = none →
      get_directory_size ⟨pe, pid, du, fdu⟩ p = .ok (0, false)) ∧
    (∀ out, pe p = true → du p = .completed 0 out → firstToken out.data = none →
      get_directory_size ⟨pe, pid, du, fdu⟩ p = .error .indexError) := by
  refine ⟨?_, ?_, ?_, ?_, ?_, ?_⟩
  · intro hex du2
    simp [get_directory_size, hex]
  · intro hdu
    by_cases hex : pe p = false
    · simp [get_directory_size, hex]
    · simp [get_directory_size, eq_true_of_ne_false hex, hdu]
  · intro hdu
    by_cases hex : pe p = false
    · simp [get_directory_size, hex]
    · simp [get_directory_size, eq_true_of_ne_false hex, hdu]
  · intro rc out hdu hrc
    by_cases hex : pe p = false
    · simp [get_directory_size, hex]
    · simp [get_directory_size, eq_true_of_ne_false hex, hdu, hrc]
  · intro out tok hdu htok hbad
    by_cases hex : pe p = false
    · simp [get_directory_size, hex]
    · simp [get_directory_size, eq_true_of_ne_false hex, hdu, htok, hbad]
  · intro out hex hdu htok
    simp [get_directory_size, hex, hdu, htok]

theorem C5_witness :
    ((fun q => decide (q = "/p")) "/q" = false) ∧
    get_directory_size
        ⟨fun q => decide (q = "/p"), fun _ => true, fun _ => .oserror,
          fun _ => .oserror⟩ "/q" = .ok (0, false) :=
  ⟨by decide,
    (C5_error_handling (fun q => decide (q = "/p")) (fun _ => true)
      (fun _ => .oserror) (fun _ => .oserror) "/q").1 (by decide)
      (fun _ => .oserror)⟩

/-! ### Decimal round trip: `int(str(n)) = n` for the modelled printer/parser -/

theorem mem_of_head?_eq {cs : List Char} {c : Char} (h : cs.head? = some c) :
    c ∈ cs := by
  cases cs with
  | nil => simp at h
  | cons a t => simp at h; subst h; exact List.mem_cons_self a t

theorem mem_of_getLast?_eq {cs : List Char} {c : Char} (h : cs.getLast? = some c) :
    c ∈ cs := by
  obtain ⟨hne, heq⟩ :=
    List.mem_getLast?_eq_getLast (l := cs) (x := c) (Option.mem_def.mpr h)
  exact heq ▸ List.getLast_mem hne

/-- Value of a digit list read most-significant-first with seed `a`. -/
def decodeFold (cs : List Char) (a : Nat) : Nat :=
  cs.foldl (fun x c => x * 10 + (c.toNat - 48)) a

theorem natDigitChar_isDigit {d : Nat} (h : d < 10) :
    (natDigitChar d).isDigit = true := by
  interval_cases d <;> decide

theorem natDigitChar_toNat {d : Nat} (h : d < 10) :
    (natDigitChar d).toNat = 48 + d := by
  interval_cases d <;> decide

theorem digit_not_ws {c : Char} (h : c.isDigit = true) :
    c.isWhitespace = false := by
  by_contra hny
  have hw : c.isWhitespace = true := by
    cases hx : c.isWhitespace
    · exact absurd hx hny
    · rfl
  have h4 : c = ' ' ∨ c = '\t' ∨ c = '\r' ∨ c = '\n' := by
    simp only [Char.isWhitespace, Bool.or_eq_true, decide_eq_true_eq] at hw
    tauto
  rcases h4 with h1 | h1 | h1 | h1 <;> subst h1 <;> simp at h

theorem digit_ne {c : Char} (h : c.isDigit = true) {d : Char}
    (hd : d.isDigit = false) : c ≠ d :=
  fun he => by subst he; rw [h] at hd; exact Bool.noConfusion hd

theorem pyIntGo_digits :
    ∀ (cs : List Char) (a : Nat), (∀ c ∈ cs, c.isDigit = true) →
      pyIntGo cs a = some (decodeFold cs a)
  | [], _, _ => rfl
  | c :: cs, a, h => by
    rw [pyIntGo.eq_def]
    simp only [h c (List.mem_cons_self c cs), if_true]
    exact pyIntGo_digits cs _ (fun d hd => h d (List.mem_cons_of_mem c hd))

theorem pyIntDigits_digits (c : Char) (rest : List Char)
    (h : ∀ d ∈ c :: rest, d.isDigit = true) :
    pyIntDigits (c :: rest) = some (decodeFold (c :: rest) 0) := by
  rw [pyIntDigits, if_pos (h c (List.mem_cons_self c rest)),
    pyIntGo_digits rest _ (fun d hd => h d (List.mem_cons_of_mem c hd))]
  show some (decodeFold rest (c.toNat - 48)) =
    some (decodeFold rest (0 * 10 + (c.toNat - 48)))
  rw [Nat.zero_mul, Nat.zero_add]

theorem natDigitsCore_digits :
    ∀ (fuel n : Nat) (acc : List Char), (∀ c ∈ acc, c.isDigit = true) →
      ∀ c ∈ natDigitsCore fuel n acc, c.isDigit = true
  | 0, _, _, h => h
  | fuel + 1, n, acc, h => by
    rw [natDigitsCore]
    by_cases h10 : n < 10
    · rw [if_pos h10]
      intro c hc
      rcases List.mem_cons.mp hc with h1 | h1
      · subst h1; exact natDigitChar_isDigit h10
      · exact h c h1
    · rw [if_neg h10]
      refine natDigitsCore_digits fuel (n / 10) _ (fun c hc => ?_)
      rcases List.mem_cons.mp hc with h1 | h1
      · subst h1; exact natDigitChar_isDigit (Nat.mod_lt n (by omega))
      · exact h c h1

theorem natDigitsCore_ne_nil :
    ∀ (fuel n : Nat) (acc : List Char), fuel ≠ 0 ∨ acc ≠ [] →
      natDigitsCore fuel n acc ≠ []
  | 0, _, acc, h => by
    rw [natDigitsCore]
    exact h.resolve_left (fun h0 => h0 rfl)
  | fuel + 1, n, acc, _ => by
    rw [natDigitsCore]
    by_cases h10 : n < 10
    · rw [if_pos h10]; exact List.cons_ne_nil _ _
    · rw [if_neg h10]
      exact natDigitsCore_ne_nil fuel (n / 10) _ (Or.inr (List.cons_ne_nil _ _))

theorem decodeFold_natDigitsCore :
    ∀ (fuel n : Nat), n < fuel → ∀ acc : List Char,
      ∃ P : Nat, 0 < P ∧
        ∀ a : Nat, decodeFold (natDigitsCore fuel n acc) a =
          decodeFold acc (a * P + n)
  | 0, n, hlt, _ => absurd hlt (Nat.not_lt_zero n)
  | fuel + 1, n, hlt, acc => by
    by_cases h10 : n < 10
    · refine ⟨10, by omega, fun a => ?_⟩
      rw [natDigitsCore, if_pos h10]
      show decodeFold acc (a * 10 + ((natDigitChar n).toNat - 48)) = _
      rw [natDigitChar_toNat h10]
      congr 1
      omega
    · have hd : n / 10 < n := Nat.div_lt_self (by omega) (by omega)
      have hfd : n / 10 < fuel := by omega
      obtain ⟨P, hP, hdec⟩ :=
        decodeFold_natDigitsCore fuel (n / 10) hfd (natDigitChar (n % 10) :: acc)
      refine ⟨P * 10, by omega, fun a => ?_⟩
      rw [natDigitsCore, if_neg h10, hdec a]
      show decodeFold acc
          ((a * P + n / 10) * 10 + ((natDigitChar (n % 10)).toNat - 48)) = _
      rw [natDigitChar_toNat (Nat.mod_lt n (by omega)), ← Nat.mul_assoc]
      congr 1
      omega

theorem decodeFold_natChars (n : Nat) : decodeFold (natChars n) 0 = n := by
  obtain ⟨P, _, h⟩ := decodeFold_natDigitsCore (n + 1) n (Nat.lt_succ_self n) []
  rw [natChars, h 0]
  show 0 * P + n = n
  omega

theorem natChars_digits (n : Nat) : ∀ c ∈ natChars n, c.isDigit = true :=
  natDigitsCore_digits (n + 1) n [] (fun c hc => absurd hc (List.not_mem_nil c))

theorem natChars_ne_nil (n : Nat) : natChars n ≠ [] :=
  natDigitsCore_ne_nil (n + 1) n [] (Or.inl (Nat.succ_ne_zero n))

theorem dropWhile_eq_self_of_head (p : Char → Bool) (cs : List Char)
    (h : ∀ c, cs.head? = some c → p c = false) : cs.dropWhile p = cs := by
  cases cs with
  | nil => rfl
  | cons c rest => rw [List.dropWhile_cons, h c rfl]; simp

theorem trimWs_eq_self (cs : List Char)
    (h1 : ∀ c, cs.head? = some c → c.isWhitespace = false)
    (h2 : ∀ c, cs.getLast? = some c → c.isWhitespace = false) :
    trimWs cs = cs := by
  rw [trimWs, dropWhile_eq_self_of_head _ _ h1,
    dropWhile_eq_self_of_head _ _
      (fun c hc => h2 c (by rw [List.head?_reverse] at hc; exact hc))]
  exact List.reverse_reverse cs

theorem pyInt_all_digits (cs : List Char) (hne : cs ≠ [])
    (hdig : ∀ c ∈ cs, c.isDigit = true) :
    pyInt (String.mk cs) = some ((decodeFold cs 0 : Nat) : Int) := by
  match cs, hne with
  | c :: rest, _ =>
    have hc := hdig c (List.mem_cons_self c rest)
    have htrim : trimWs (c :: rest) = c :: rest := by
      refine trimWs_eq_self _ (fun d hd => ?_) (fun d hd => ?_)
      · exact digit_not_ws (hdig d (mem_of_head?_eq hd))
      · exact digit_not_ws (hdig d (mem_of_getLast?_eq hd))
    rw [pyInt]
    simp only [htrim]
    rw [if_neg (digit_ne hc (d := '+') (by decide)),
      if_neg (digit_ne hc (d := '-') (by decide)),
      pyIntDigits_digits c rest hdig]
    rfl

theorem pyInt_natChars (n : Nat) :
    pyInt (String.mk (natChars n)) = some (n : Int) := by
  rw [pyInt_all_digits (natChars n) (natChars_ne_nil n) (natChars_digits n),
    decodeFold_natChars]

/-! ### Splitting and joining lines -/

theorem splitChar_ne_nil (sep : Char) (cs : List Char) : splitChar sep cs ≠ [] := by
  induction cs with
  | nil => simp [splitChar]
  | cons c cs ih =>
    rw [splitChar]
    cases h : splitChar sep cs with
    | nil => exact absurd h ih
    | cons p ps =>
      by_cases hc : c = sep
      · simp [hc]
      · simp [hc]

theorem splitChar_no_sep (sep : Char) :
    ∀ cs : List Char, sep ∉ cs → splitChar sep cs = [cs]
  | [], _ => rfl
  | c :: cs, h => by
    have hc : ¬ c = sep := fun hc => h (by rw [← hc]; exact List.mem_cons_self c cs)
    rw [splitChar, splitChar_no_sep sep cs (fun hm => h (List.mem_cons_of_mem c hm))]
    simp [hc]

theorem splitChar_append (sep : Char) :
    ∀ (l rest : List Char), sep ∉ l →
      splitChar sep (l ++ sep :: rest) = l :: splitChar sep rest
  | [], rest, _ => by
    rw [List.nil_append, splitChar]
    cases h : splitChar sep rest with
    | nil => exact absurd h (splitChar_ne_nil sep rest)
    | cons p ps => simp [h]
  | c :: l, rest, h => by
    have hc : ¬ c = sep := fun hc => h (by rw [← hc]; exact List.mem_cons_self c _)
    rw [List.cons_append, splitChar,
      splitChar_append sep l rest (fun hm => h (List.mem_cons_of_mem c hm))]
    simp [hc]

theorem splitChar_joinLines :
    ∀ lines : List (List Char), lines ≠ [] → (∀ l ∈ lines, '\n' ∉ l) →
      splitChar '\n' (joinLines lines) = lines
  | [], hne, _ => absurd rfl hne
  | [l], _, h => by
    rw [joinLines, splitChar_no_sep '\n' l (h l (List.mem_cons_self l []))]
  | l :: l2 :: ls, _, h => by
    rw [joinLines,
      splitChar_append '\n' l (joinLines (l2 :: ls)) (h l (List.mem_cons_self l _)),
      splitChar_joinLines (l2 :: ls) (List.cons_ne_nil l2 ls)
        (fun x hx => h x (List.mem_cons_of_mem l hx))]
    exact fun hx => absurd hx (List.cons_ne_nil l2 ls)

theorem joinLines_ne_nil :
    ∀ (l : List Char) (ls : List (List Char)), l ≠ [] → joinLines (l :: ls) ≠ []
  | l, [], h => by rw [joinLines]; exact h
  | l, l2 :: ls, _ => by
    rw [joinLines]
    · intro hx
      exact absurd (List.append_eq_nil.mp hx).2 (List.cons_ne_nil _ _)
    · exact fun hx => absurd hx (List.cons_ne_nil l2 ls)

theorem head?_joinLines :
    ∀ (l : List Char) (ls : List (List Char)), l ≠ [] →
      (joinLines (l :: ls)).head? = l.head?
  | l, [], _ => by rw [joinLines]
  | l, l2 :: ls, h => by
    rw [joinLines]
    · cases l with
      | nil => exact absurd rfl h
      | cons c t => rfl
    · exact fun hx => absurd hx (List.cons_ne_nil l2 ls)

theorem exists_getLast?_of_ne_nil {l : List Char} (h : l ≠ []) :
    ∃ d, l.getLast? = some d := by
  cases hl : l.getLast? with
  | none => exact absurd (List.getLast?_eq_none_iff.mp hl) h
  | some d => exact ⟨d, rfl⟩

theorem getLast?_joinLines :
    ∀ lines : List (List Char), (∀ l ∈ lines, l ≠ []) →
      ∀ c, (joinLines lines).getLast? = some c →
        ∃ l ∈ lines, l.getLast? = some c
  | [], _, c, h => by rw [joinLines] at h; exact absurd h (by simp)
  | [l], _, c, h => ⟨l, List.mem_cons_self l [], by rwa [joinLines] at h⟩
  | l :: l2 :: ls, hne, c, h => by
    have hJ : joinLines (l :: l2 :: ls) = l ++ '\n' :: joinLines (l2 :: ls) := by
      rw [joinLines]
      exact fun hx => absurd hx (List.cons_ne_nil l2 ls)
    rw [hJ, List.getLast?_append] at h
    have hjn : joinLines (l2 :: ls) ≠ [] :=
      joinLines_ne_nil l2 ls (hne l2 (List.mem_cons_of_mem l (List.mem_cons_self l2 ls)))
    obtain ⟨d, hd⟩ := exists_getLast?_of_ne_nil hjn
    have hcons : ('\n' :: joinLines (l2 :: ls)).getLast? = some d := by
      cases hj : joinLines (l2 :: ls) with
      | nil => exact absurd hj hjn
      | cons a t =>
        rw [hj] at hd
        rw [List.getLast?_cons_cons, hd]
    rw [hcons, Option.or_some] at h
    have hdc : d = c := Option.some.inj h
    subst hdc
    obtain ⟨x, hx, hxl⟩ :=
      getLast?_joinLines (l2 :: ls)
        (fun y hy => hne y (List.mem_cons_of_mem l hy)) d hd
    exact ⟨x, List.mem_cons_of_mem l hx, hxl⟩

/-! ### Model of the batched `find`/`du` invocation for claim C6 -/

/-- Whether `p` names an immediate (depth-1) subdirectory of `root`:
`p = root ++ "/" ++ name` with `name` nonempty and slash-free. -/
def isImmediateSubdir (root p : String) : Bool :=
  decide (p.data.take root.data.length = root.data) &&
    match p.data.drop root.data.length with
    | '/' :: name => !name.isEmpty && decide ('/' ∉ name)
    | _ => false

/-- A directory path as `find`/`du` print it on one line: nonempty, free of
tab and newline, and not ending in whitespace (so that `strip()` and the
tab/newline splits of lines 151–153 recover it exactly). -/
def cleanPath (p : String) : Prop :=
  p.data ≠ [] ∧ '\t' ∉ p.data ∧ '\n' ∉ p.data ∧
    ∀ c, p.data.getLast? = some c → c.isWhitespace = false

/-- One stdout line of `find … -exec du -sk {} ;`: `"<kb>\t<path>"`. -/
def lineChars (e : String × Nat) : List Char :=
  natChars e.2 ++ '\t' :: e.1.data

/-- The directories `find <root> -maxdepth 1 -type d` lists, in catalog
order: the root itself together with its immediate subdirectories (the
starting point is at depth 0 and is always reported). -/
def findListing (dirs : List (String × Nat)) (root : String) :
    List (String × Nat) :=
  dirs.filter (fun e => e.1 == root || isImmediateSubdir root e.1)

/-- Modelled stdout of the batched invocation of line 144, one `du -sk`
line per listed directory. -/
def findStdout (dirs : List (String × Nat)) (root : String) : String :=
  String.mk (joinLines ((findListing dirs root).map lineChars))

/-- An environment in which `root` exists, is a directory, and the batched
utility succeeds with the modelled listing of the abstract directory set. -/
def findEnv (dirs : List (String × Nat)) (root : String) : SysEnv :=
  { pathExists := fun _ => true
  , pathIsDir := fun _ => true
  , duResult := fun _ => .completed 1 ""
  , findDu := fun _ => .completed 0 (findStdout dirs root) }

theorem mk_data_eq (s : String) : String.mk s.data = s := by
  cases s
  rfl

theorem lineChars_ne_nil (e : String × Nat) : lineChars e ≠ [] := by
  rw [lineChars]
  intro h
  exact absurd (List.append_eq_nil.mp h).2 (List.cons_ne_nil _ _)

theorem tab_not_in_natChars (n : Nat) : '\t' ∉ natChars n :=
  fun hm => absurd (natChars_digits n _ hm) (by decide)

theorem lineChars_no_nl (e : String × Nat) (h : cleanPath e.1) :
    '\n' ∉ lineChars e := by
  intro hm
  rcases List.mem_append.mp hm with hm | hm
  · exact absurd (natChars_digits e.2 _ hm) (by decide)
  · rcases List.mem_cons.mp hm with h1 | h1
    · exact absurd h1 (by decide)
    · exact h.2.2.1 h1

theorem lineChars_head_digit (e : String × Nat) :
    ∀ c, (lineChars e).head? = some c → c.isDigit = true := by
  intro c hc
  rw [lineChars] at hc
  cases hn : natChars e.2 with
  | nil => exact absurd hn (natChars_ne_nil e.2)
  | cons d t =>
    rw [hn, List.cons_append, List.head?_cons] at hc
    have hd : d ∈ natChars e.2 := by rw [hn]; exact List.mem_cons_self d t
    rw [← Option.some.inj hc]
    exact natChars_digits e.2 d hd

theorem lineChars_getLast_not_ws (e : String × Nat) (h : cleanPath e.1) :
    ∀ c, (lineChars e).getLast? = some c → c.isWhitespace = false := by
  intro c hc
  rw [lineChars, List.getLast?_append] at hc
  cases hd : e.1.data with
  | nil => exact absurd hd h.1
  | cons a t =>
    rw [hd, List.getLast?_cons_cons] at hc
    obtain ⟨d, hdd⟩ := exists_getLast?_of_ne_nil (List.cons_ne_nil a t)
    rw [hdd, Option.or_some] at hc
    refine h.2.2.2 c ?_
    rw [hd, ← Option.some.inj hc]
    exact hdd

theorem lineChars_split (e : String × Nat) (h : cleanPath e.1) :
    splitChar '\t' (lineChars e) = [natChars e.2, e.1.data] := by
  rw [lineChars,
    splitChar_append '\t' (natChars e.2) e.1.data (tab_not_in_natChars e.2),
    splitChar_no_sep '\t' e.1.data h.2.1]

theorem trimWs_joinLines_lines (listing : List (String × Nat))
    (hcl : ∀ e ∈ listing, cleanPath e.1) (hne : listing ≠ []) :
    trimWs (joinLines (listing.map lineChars)) =
      joinLines (listing.map lineChars) := by
  apply trimWs_eq_self
  · intro c hc
    match listing, hne with
    | e :: rest, _ =>
      rw [List.map_cons,
        head?_joinLines (lineChars e) _ (lineChars_ne_nil e)] at hc
      exact digit_not_ws (lineChars_head_digit e c hc)
  · intro c hc
    obtain ⟨l, hl, hlast⟩ :=
      getLast?_joinLines (listing.map lineChars)
        (fun l hl => by
          obtain ⟨e, _, heq⟩ := List.mem_map.mp hl
          exact heq ▸ lineChars_ne_nil e)
        c hc
    obtain ⟨e, he, heq⟩ := List.mem_map.mp hl
    exact lineChars_getLast_not_ws e (hcl e he) c (heq ▸ hlast)

theorem flLoop_lineChars (m : Threshold) :
    ∀ (listing : List (String × Nat)) (acc : List (String × Int)),
      (∀ e ∈ listing, cleanPath e.1) →
      flLoop m (listing.map lineChars) acc =
        acc ++
          ((listing.filter
            (fun e => decide (0 < e.2) && gbAtLeast ((e.2 : Int) * 1024) m)).map
            (fun e => (e.1, (e.2 : Int) * 1024)))
  | [], acc, _ => by simp [flLoop]
  | e :: rest, acc, h => by
    have hcl := h e (List.mem_cons_self e rest)
    have hrest : ∀ x ∈ rest, cleanPath x.1 :=
      fun x hx => h x (List.mem_cons_of_mem e hx)
    rw [List.map_cons, flLoop, if_neg (lineChars_ne_nil e), lineChars_split e hcl]
    simp only [pyInt_natChars]
    rw [List.filter_cons]
    by_cases hp : 0 < e.2
    · have hpi : (0 : Int) < (e.2 : Int) := Int.natCast_pos.mpr hp
      rw [if_pos hpi]
      by_cases hg : gbAtLeast ((e.2 : Int) * 1024) m = true
      · rw [if_pos hg]
        have hcond : (decide (0 < e.2) && gbAtLeast ((e.2 : Int) * 1024) m) = true := by
          rw [decide_eq_true hp, hg, Bool.and_self]
        rw [hcond]
        simp only [if_true]
        rw [flLoop_lineChars m rest _ hrest, mk_data_eq, List.map_cons,
          List.append_assoc, List.singleton_append]
      · rw [if_neg hg]
        have hcond : (decide (0 < e.2) && gbAtLeast ((e.2 : Int) * 1024) m) = false := by
          rw [eq_false_of_ne_true hg, Bool.and_false]
        rw [hcond]
        simp only [Bool.false_eq_true, if_false]
        exact flLoop_lineChars m rest acc hrest
    · have hpi : ¬ (0 : Int) < (e.2 : Int) := fun hx => hp (Int.natCast_pos.mp hx)
      rw [if_neg hpi]
      have hcond : (decide (0 < e.2) && gbAtLeast ((e.2 : Int) * 1024) m) = false := by
        rw [decide_eq_false hp, Bool.false_and]
      rw [hcond]
      simp only [Bool.false_eq_true, if_false]
      exact flLoop_lineChars m rest acc hrest

/-- Claim C6, counterexample: `find <root> -maxdepth 1 -type d` also lists
the root itself (depth 0), so `find_large_directories` can return the root —
which is not an immediate subdirectory of itself: on a filesystem whose only
directory is the 2 GB root `/r`, the returned sequence is `[("/r", 2 GB)]`. -/
theorem C6_counterexample :
    find_large_directories
        ⟨fun _ => true, fun _ => true, fun _ => .oserror,
          fun _ => .completed 0 "2097152\t/r"⟩ "/r" ⟨1, 1, Nat.one_pos⟩ =
      [("/r", 2147483648)] ∧
    isImmediateSubdir "/r" "/r" = false ∧
    findStdout [("/r", 2097152)] "/r" = "2097152\t/r" :=
  ⟨rfl, by decide, by decide⟩

/-- Claim C6 as amended: over the modelled batched utility (a depth-limited
`find` reporting the root itself and its immediate subdirectories, each with
its `du -sk` kilobyte count), `findLarge(root, m)` returns exactly the listed
entries — root included — whose kilobyte count is positive and whose size is
at or above the threshold, in listing order, paired with their byte sizes. -/
theorem C6_find_large (dirs : List (String × Nat)) (root : String)
    (m : Threshold) (hcl : ∀ e ∈ dirs, cleanPath e.1) :
    find_large_directories (findEnv dirs root) root m =
      ((findListing dirs root).filter
        (fun e => decide (0 < e.2) && gbAtLeast ((e.2 : Int) * 1024) m)).map
        (fun e => (e.1, (e.2 : Int) * 1024)) := by
  have key : find_large_directories (findEnv dirs root) root m =
      flLoop m
        (splitChar '\n' (trimWs (joinLines ((findListing dirs root).map lineChars))))
        [] := rfl
  have hclL : ∀ x ∈ findListing dirs root, cleanPath x.1 :=
    fun x hx => hcl x (List.mem_of_mem_filter hx)
  rw [key]
  cases hL : findListing dirs root with
  | nil => rfl
  | cons e rest =>
    rw [hL] at hclL
    rw [trimWs_joinLines_lines (e :: rest) hclL (List.cons_ne_nil e rest),
      splitChar_joinLines ((e :: rest).map lineChars)
        (by simp)
        (fun l hl => by
          obtain ⟨x, hx, heq⟩ := List.mem_map.mp hl
          exact heq ▸ lineChars_no_nl x (hclL x hx)),
      flLoop_lineChars m (e :: rest) [] hclL, List.nil_append]

/-- Executable check for `cleanPath`, for concrete instances. -/
def cleanPathB (p : String) : Bool :=
  decide (p.data ≠ []) && decide ('\t' ∉ p.data) && decide ('\n' ∉ p.data) &&
    (match p.data.getLast? with
     | some c => !c.isWhitespace
     | none => true)

theorem cleanPath_of_b (p : String) (h : cleanPathB p = true) : cleanPath p := by
  rw [cleanPathB, Bool.and_eq_true, Bool.and_eq_true, Bool.and_eq_true] at h
  obtain ⟨⟨⟨h1, h2⟩, h3⟩, h4⟩ := h
  refine ⟨of_decide_eq_true h1, of_decide_eq_true h2, of_decide_eq_true h3, ?_⟩
  intro c hc
  rw [hc] at h4
  change (!c.isWhitespace) = true at h4
  cases hb : c.isWhitespace
  · rfl
  · rw [hb] at h4
    exact absurd h4 (by decide)

theorem C6_witness :
    (∀ e ∈ ([("/r", 2097152), ("/r/sub", 1048576), ("/r/tiny", 100)] :
        List (String × Nat)), cleanPath e.1) ∧
    find_large_directories
        (findEnv [("/r", 2097152), ("/r/sub", 1048576), ("/r/tiny", 100)] "/r")
        "/r" ⟨1, 1, Nat.one_pos⟩ =
      [("/r", 2147483648), ("/r/sub", 1073741824)] := by
  have hcl : ∀ e ∈ ([("/r", 2097152), ("/r/sub", 1048576), ("/r/tiny", 100)] :
      List (String × Nat)), cleanPath e.1 := by
    intro e he
    simp only [List.mem_cons, List.not_mem_nil, or_false] at he
    rcases he with rfl | rfl | rfl
    · exact cleanPath_of_b "/r" (by decide)
    · exact cleanPath_of_b "/r/sub" (by decide)
    · exact cleanPath_of_b "/r/tiny" (by decide)
  refine ⟨hcl, ?_⟩
  rw [C6_find_large [("/r", 2097152), ("/r/sub", 1048576), ("/r/tiny", 100)]
    "/r" ⟨1, 1, Nat.one_pos⟩ hcl]
  decide

/-! ### Claim C7: failure handling of `find_large_directories` -/

theorem flLoop_stops_at_bad (m : Threshold) (bad : List Char)
    (p0 p1 : List Char) (hsplit : splitChar '\t' bad = [p0, p1])
    (hbad : pyInt (String.mk p0) = none) (rest : List (List Char)) :
    ∀ (pre : List (List Char)) (acc : List (String × Int)),
      flLoop m (pre ++ bad :: rest) acc = flLoop m pre acc
  | [], acc => by
    have hbne : bad ≠ [] := by
      intro h0
      subst h0
      simp [splitChar] at hsplit
    rw [List.nil_append]
    conv_rhs => rw [flLoop]
    rw [flLoop, if_neg hbne, hsplit]
    simp only [hbad]
  | line :: pre, acc => by
    rw [List.cons_append, flLoop]
    conv_rhs => rw [flLoop]
    by_cases hline : line = []
    · rw [if_pos hline, if_pos hline]
      exact flLoop_stops_at_bad m bad p0 p1 hsplit hbad rest pre acc
    · rw [if_neg hline, if_neg hline]
      rcases hsp : splitChar '\t' line with _ | ⟨q0, _ | ⟨q1, _ | ⟨q2, qs⟩⟩⟩
      · simp only [hsp]
        exact flLoop_stops_at_bad m bad p0 p1 hsplit hbad rest pre acc
      · simp only [hsp]
        exact flLoop_stops_at_bad m bad p0 p1 hsplit hbad rest pre acc
      · simp only [hsp]
        cases hpy : pyInt (String.mk q0) with
        | none => rfl
        | some kb =>
          dsimp only
          by_cases hkb : (0 : Int) < kb
          · rw [if_pos hkb, if_pos hkb]
            by_cases hg : gbAtLeast (kb * 1024) m = true
            · rw [if_pos hg, if_pos hg]
              exact flLoop_stops_at_bad m bad p0 p1 hsplit hbad rest pre _
            · rw [if_neg hg, if_neg hg]
              exact flLoop_stops_at_bad m bad p0 p1 hsplit hbad rest pre acc
          · rw [if_neg hkb, if_neg hkb]
            exact flLoop_stops_at_bad m bad p0 p1 hsplit hbad rest pre acc
      · simp only [hsp]
        exact flLoop_stops_at_bad m bad p0 p1 hsplit hbad rest pre acc

/-- Claim C7, counterexample: on output whose second line has an unparsable
size field, the loop's `ValueError` is caught by the surrounding `except`
after one entry was already accumulated — the function returns that
*partial* result, not an empty sequence. -/
theorem C7_counterexample :
    find_large_directories
        ⟨fun _ => true, fun _ => true, fun _ => .oserror,
          fun _ => .completed 0 "1048576\t/r/a\nxyz\t/r/b"⟩ "/r"
        ⟨1, 2, Nat.two_pos⟩ =
      [("/r/a", 1073741824)] ∧
    find_large_directories
        ⟨fun _ => true, fun _ => true, fun _ => .oserror,
          fun _ => .completed 0 "1048576\t/r/a\nxyz\t/r/b"⟩ "/r"
        ⟨1, 2, Nat.two_pos⟩ ≠ [] :=
  ⟨rfl, by decide⟩

/-- Claim C7 as amended: a timeout of the batched invocation, a missing or
non-directory root, a raised permission/OS error, or a non-zero exit status
each yield the empty sequence; but an unparsable size field does not — the
line loop stops at the first such line and the entries accumulated before it
are returned, a possibly non-empty partial result. -/
theorem C7_failure_empty :
    (∀ (env : SysEnv) (root : String) (m : Threshold),
      env.pathExists root = false → find_large_directories env root m = []) ∧
    (∀ (env : SysEnv) (root : String) (m : Threshold),
      env.pathIsDir root = false → find_large_directories env root m = []) ∧
    (∀ (env : SysEnv) (root : String) (m : Threshold),
      env.findDu root = .timeoutExpired → find_large_directories env root m = []) ∧
    (∀ (env : SysEnv) (root : String) (m : Threshold),
      env.findDu root = .oserror → find_large_directories env root m = []) ∧
    (∀ (env : SysEnv) (root : String) (m : Threshold) (rc : Int) (out : String),
      env.findDu root = .completed rc out → rc ≠ 0 →
      find_large_directories env root m = []) ∧
    (∀ (m : Threshold) (pre : List (List Char)) (bad : List Char)
        (rest : List (List Char)) (acc : List (String × Int))
        (p0 p1 : List Char),
      splitChar '\t' bad = [p0, p1] → pyInt (String.mk p0) = none →
      flLoop m (pre ++ bad :: rest) acc = flLoop m pre acc) := by
  refine ⟨?_, ?_, ?_, ?_, ?_, ?_⟩
  · intro env root m h
    rw [find_large_directories, if_pos h]
  · intro env root m h
    by_cases hex : env.pathExists root = false
    · rw [find_large_directories, if_pos hex]
    · rw [find_large_directories, if_neg hex, if_pos h]
  · intro env root m h
    by_cases hex : env.pathExists root = false
    · rw [find_large_directories, if_pos hex]
    · by_cases hdir : env.pathIsDir root = false
      · rw [find_large_directories, if_neg hex, if_pos hdir]
      · rw [find_large_directories, if_neg hex, if_neg hdir, h]
  · intro env root m h
    by_cases hex : env.pathExists root = false
    · rw [find_large_directories, if_pos hex]
    · by_cases hdir : env.pathIsDir root = false
      · rw [find_large_directories, if_neg hex, if_pos hdir]
      · rw [find_large_directories, if_neg hex, if_neg hdir, h]
  · intro env root m rc out h hrc
    by_cases hex : env.pathExists root = false
    · rw [find_large_directories, if_pos hex]
    · by_cases hdir : env.pathIsDir root = false
      · rw [find_large_directories, if_neg hex, if_pos hdir]
      · rw [find_large_directories, if_neg hex, if_neg hdir, h]
        simp only [if_neg hrc]
  · intro m pre bad rest acc p0 p1 hsplit hbad
    exact flLoop_stops_at_bad m bad p0 p1 hsplit hbad rest pre acc

theorem C7_witness :
    ((⟨fun _ => false, fun _ => true, fun _ => .oserror, fun _ => .oserror⟩ :
        SysEnv).pathExists "/r" = false) ∧
    find_large_directories
        ⟨fun _ => false, fun _ => true, fun _ => .oserror, fun _ => .oserror⟩
        "/r" ⟨1, 1, Nat.one_pos⟩ = [] :=
  ⟨rfl,
    C7_failure_empty.1
      ⟨fun _ => false, fun _ => true, fun _ => .oserror, fun _ => .oserror⟩
      "/r" ⟨1, 1, Nat.one_pos⟩ rfl⟩
